import Mathlib

/-
Verification of the ingestion and decode pipeline of pybricks_ble_scan.py
(a BLE observer for Pybricks broadcast packets), as a shallow embedding.

Conventions of the embedding:
- byte sequences are List Nat (each element is one byte value);
- Python exceptions are modeled with Except Unit: Except.error () is a
  raised exception (IndexError on an out-of-bounds subscript, UnicodeError
  on an invalid UTF-8 decode), Except.ok is a normal return;
- the Python sentinel None for a missing result is modeled with Option;
- Python float arithmetic (the RSSI EMA) is modeled over the rationals;
  the IEEE-754 payload of a FLOAT value is kept as its raw 4 bytes;
- while loops that advance an index are modeled with an explicit iteration
  bound (fuel); the chosen bound is proved sufficient, so the model agrees
  with the unbounded loop of the source.
-/

namespace PybricksScan

/-- Equality of modeled call results (normal return or raised exception)
is decidable, so concrete runs can be checked by evaluation. -/
instance {ε α : Type} [DecidableEq ε] [DecidableEq α] : DecidableEq (Except ε α) :=
  fun a b =>
  match a, b with
  | .error e1, .error e2 => decidable_of_iff (e1 = e2) (by simp)
  | .error _, .ok _ => isFalse (fun h => by cases h)
  | .ok _, .error _ => isFalse (fun h => by cases h)
  | .ok a1, .ok a2 => decidable_of_iff (a1 = a2) (by simp)

/-- Pybricks company identifier 0x0397, constant of the source. -/
def PYBRICKS_COMPANY_ID : Nat := 0x0397

/-- AD type for manufacturer specific data, constant of the source. -/
def AD_TYPE_MFR : Nat := 0xFF

/-- Watchdog timeout in seconds, constant of the source. -/
def WATCHDOG_SEC : Nat := 10

/-- Preventive restart threshold in IRQ events, constant of the source. -/
def PREVENTIVE_RESTART_EVENTS : Nat := 6000

/-- Dedup configuration flag, constant of the source. -/
def SUPPRESS_DUPLICATES : Bool := true

/-- Queue capacity: the source builds deque((), 180). -/
def QUEUE_MAXLEN : Nat := 180

/-- Color theme configuration, constant of the source. -/
def COLOR_THEME : String := "light"

/-- Colors for a dark background, constant list of the source. -/
def COLORS_DARK : List String :=
  ["\x1b[91m", "\x1b[92m", "\x1b[93m", "\x1b[94m", "\x1b[95m",
   "\x1b[96m", "\x1b[31m", "\x1b[32m", "\x1b[33m", "\x1b[35m"]

/-- Colors for a light background, constant list of the source. -/
def COLORS_LIGHT : List String :=
  ["\x1b[31m", "\x1b[32m", "\x1b[34m", "\x1b[35m", "\x1b[36m",
   "\x1b[33m", "\x1b[91m", "\x1b[92m", "\x1b[94m", "\x1b[95m"]

/-- COLORS selection of the source: dark list when the theme is dark. -/
def COLORS : List String :=
  if COLOR_THEME = "dark" then COLORS_DARK else COLORS_LIGHT

/-- Value type encoding masks of the source: top 3 bits are the type. -/
def _TYPE_MASK : Nat := 0b11100000

/-- Value type encoding masks of the source: bottom 5 bits are the length. -/
def _LEN_MASK : Nat := 0b00011111

/-- Type tag SINGLE_OBJECT (wrapper). -/
def _T_SINGLE : Nat := 0 <<< 5

/-- Type tag TRUE. -/
def _T_TRUE : Nat := 1 <<< 5

/-- Type tag FALSE. -/
def _T_FALSE : Nat := 2 <<< 5

/-- Type tag INT. -/
def _T_INT : Nat := 3 <<< 5

/-- Type tag FLOAT. -/
def _T_FLOAT : Nat := 4 <<< 5

/-- Type tag STR. -/
def _T_STR : Nat := 5 <<< 5

/-- Type tag BYTES. -/
def _T_BYTES : Nat := 6 <<< 5

/-- Whether a byte is a UTF-8 continuation byte (0x80 to 0xBF). -/
def isUtf8Cont (b : Nat) : Bool := 0x80 ≤ b && b < 0xC0

/-- Number of continuation bytes demanded by a UTF-8 leading byte, or
none when the byte cannot begin a UTF-8 sequence. Models the structural
UTF-8 check that bytes.decode of the target platform performs. -/
def utf8NeedBytes (b : Nat) : Option Nat :=
  if b < 0x80 then some 0
  else if b < 0xC0 then none
  else if b < 0xE0 then some 1
  else if b < 0xF0 then some 2
  else if b < 0xF8 then some 3
  else none

/-- Structural UTF-8 validity scan: need counts outstanding continuation
bytes of the sequence currently open. -/
def utf8ValidAux : List Nat → Nat → Bool
  | [], need => need = 0
  | b :: rest, need =>
    if need ≠ 0 then
      if isUtf8Cont b then utf8ValidAux rest (need - 1) else false
    else
      match utf8NeedBytes b with
      | none => false
      | some n => utf8ValidAux rest n

/-- Whether a byte list is valid UTF-8; bytes.decode(utf-8) of the source
succeeds exactly on valid input and raises UnicodeError otherwise. -/
def utf8Valid (l : List Nat) : Bool := utf8ValidAux l 0

/-
Record walkers. The source walks AD records with
  i = 0
  while i < len(payload):
      length = payload[i]
      if length == 0: break
      i += 1
      if i + length > len(payload): break
      ... inspect payload[i] (the type byte) and the record data ...
      i += length
Each walker is modeled with an explicit iteration bound (first Nat
argument); every iteration that recurses advances i by at least 2, so
payload.length + 1 iterations always suffice (lemmas
find_mfr_offset_go_stable and find_local_name_go_stable below).
A subscript payload[j] is modeled as payload.get? j, where none means the
IndexError that Python would raise, propagated as Except.error ().
-/

/-- Loop body of find_mfr_offset of the source: walks AD records looking
for a manufacturer specific record (type 0xFF) whose first two data bytes
are the Pybricks company identifier 0x97 0x03 little-endian; returns the
offset of the first data byte (ok some), ok none for the -1 of the
source, and error () for a raised IndexError. -/
def find_mfr_offset_go (payload : List Nat) : Nat → Nat → Except Unit (Option Nat)
  | 0, _ => .ok none
  | fuel + 1, i =>
    if i < payload.length then
      match payload.get? i with
      | none => .error ()
      | some length =>
        if length = 0 then .ok none
        else if payload.length < i + 1 + length then .ok none
        else
          match payload.get? (i + 1) with
          | none => .error ()
          | some t =>
            if t = AD_TYPE_MFR then
              if 3 ≤ length then
                match payload.get? (i + 2) with
                | none => .error ()
                | some b0 =>
                  if b0 = 0x97 then
                    match payload.get? (i + 3) with
                    | none => .error ()
                    | some b1 =>
                      if b1 = 0x03 then .ok (some (i + 2))
                      else find_mfr_offset_go payload fuel (i + 1 + length)
                  else find_mfr_offset_go payload fuel (i + 1 + length)
              else find_mfr_offset_go payload fuel (i + 1 + length)
            else find_mfr_offset_go payload fuel (i + 1 + length)
    else .ok none

/-- find_mfr_offset of the source, starting the walk at index 0. -/
def find_mfr_offset (payload : List Nat) : Except Unit (Option Nat) :=
  find_mfr_offset_go payload (payload.length + 1) 0

/-- Loop body of find_local_name of the source: walks AD records looking
for a Shortened (0x08) or Complete (0x09) Local Name record; on a hit the
record data payload[i+1 : i+length] (post-increment indexing of the
source) is decoded as UTF-8, where the try/except of the source turns a
UnicodeError into the None result. Returns the name bytes. -/
def find_local_name_go (payload : List Nat) : Nat → Nat → Except Unit (Option (List Nat))
  | 0, _ => .ok none
  | fuel + 1, i =>
    if i < payload.length then
      match payload.get? i with
      | none => .error ()
      | some length =>
        if length = 0 then .ok none
        else if payload.length < i + 1 + length then .ok none
        else
          match payload.get? (i + 1) with
          | none => .error ()
          | some t =>
            if t = 0x08 ∨ t = 0x09 then
              let bs := (payload.drop (i + 2)).take (length - 1)
              if utf8Valid bs then .ok (some bs) else .ok none
            else find_local_name_go payload fuel (i + 1 + length)
    else .ok none

/-- find_local_name of the source, starting the walk at index 0. -/
def find_local_name (payload : List Nat) : Except Unit (Option (List Nat)) :=
  find_local_name_go payload (payload.length + 1) 0

/-- Decoded Pybricks value (the Python value returned by decode_value).
A FLOAT keeps its 4 raw little-endian IEEE-754 bytes uninterpreted; a STR
keeps its UTF-8 bytes (which are valid whenever the constructor is
produced by the decoder). -/
inductive Value where
  | bool : Bool → Value
  | int : Int → Value
  | float : List Nat → Value
  | str : List Nat → Value
  | bytes : List Nat → Value
deriving DecidableEq

/-- The _INT_FMTS table of the source maps a declared length to the
struct format and its size; only the size matters for the model. -/
def _INT_FMTS (length : Nat) : Option Nat :=
  if length = 1 then some 1
  else if length = 2 then some 2
  else if length = 4 then some 4
  else none

/-- Little-endian unsigned value of a byte list. -/
def leUnsigned (bs : List Nat) : Nat := bs.foldr (fun b acc => b + 256 * acc) 0

/-- Reinterpret an unsigned size-byte value as a signed integer, the
semantics of the struct formats b, h, i of the source. -/
def toSigned (size n : Nat) : Int :=
  if n < 2 ^ (8 * size - 1) then (n : Int) else (n : Int) - 2 ^ (8 * size)

/-- Function _decode_int of the source. -/
def _decode_int (data : List Nat) (pos length : Nat) : Option Value × Nat :=
  match _INT_FMTS length with
  | none => (none, 0)
  | some size =>
    if data.length < pos + size then (none, 0)
    else (some (.int (toSigned size (leUnsigned ((data.drop pos).take size)))), size)

/-- Function _decode_float of the source: 4 bytes, kept raw. -/
def _decode_float (data : List Nat) (pos : Nat) : Option Value × Nat :=
  if data.length < pos + 4 then (none, 0)
  else (some (.float ((data.drop pos).take 4)), 4)

/-- Function _decode_str of the source. The slice is decoded as UTF-8 WITHOUT a
try/except, so invalid UTF-8 raises a UnicodeError that the model returns
as Except.error (). -/
def _decode_str (data : List Nat) (pos length : Nat) : Except Unit (Option Value × Nat) :=
  if data.length < pos + length then .ok (none, 0)
  else
    let bs := (data.drop pos).take length
    if utf8Valid bs then .ok (some (.str bs), length) else .error ()

/-- Function _decode_bytes of the source. -/
def _decode_bytes (data : List Nat) (pos length : Nat) : Option Value × Nat :=
  if data.length < pos + length then (none, 0)
  else (some (.bytes ((data.drop pos).take length)), length)

/-- The header-reading while loop of decode_value of the source: reads the
header byte at pos and re-reads while the type is SINGLE_OBJECT. The first
argument is the suffix data.drop pos, so the recursion is structural; the
second argument tracks the absolute position. Returns the type, length
field and position after the accepted header, or none when the cursor ran
off the end (the source then returns (None, 0)). -/
def skipSingle : List Nat → Nat → Option (Nat × Nat × Nat)
  | [], _ => none
  | b :: rest, pos =>
    if b &&& _TYPE_MASK = _T_SINGLE then skipSingle rest (pos + 1)
    else some (b &&& _TYPE_MASK, b &&& _LEN_MASK, pos + 1)

/-- Dispatch on the decoded header, the tail of decode_value of the
source after its while loop. -/
def decode_dispatch (data : List Nat) (typ length pos : Nat) :
    Except Unit (Option Value × Nat) :=
  if typ = _T_TRUE then .ok (some (.bool true), 0)
  else if typ = _T_FALSE then .ok (some (.bool false), 0)
  else if typ = _T_INT then .ok (_decode_int data pos length)
  else if typ = _T_FLOAT then .ok (_decode_float data pos)
  else if typ = _T_STR then _decode_str data pos length
  else if typ = _T_BYTES then .ok (_decode_bytes data pos length)
  else .ok (none, 0)

/-- decode_value of the source: decode one Pybricks-encoded value from
data starting at byte pos. Returns the decoded value and the number of
DATA bytes consumed (header bytes are never counted by the source);
(none, 0) on a decode failure; error () for the uncaught UnicodeError of
_decode_str. -/
def decode_value (data : List Nat) (pos : Nat) : Except Unit (Option Value × Nat) :=
  match skipSingle (data.drop pos) pos with
  | none => .ok (none, 0)
  | some (typ, length, pos1) => decode_dispatch data typ length pos1

/-- Fuel-instrumented variant of skipSingle: none signals that the
iteration bound was exhausted, used to state that the loop terminates
within data.length - pos + 1 iterations. -/
def skipSingleFuel : Nat → List Nat → Nat → Option (Option (Nat × Nat × Nat))
  | 0, _, _ => none
  | fuel + 1, s, pos =>
    match s with
    | [] => some none
    | b :: rest =>
      if b &&& _TYPE_MASK = _T_SINGLE then skipSingleFuel fuel rest (pos + 1)
      else some (some (b &&& _TYPE_MASK, b &&& _LEN_MASK, pos + 1))

/-- Fuel-instrumented variant of decode_value; none signals that the
wrapper-skipping loop did not finish within the given bound. -/
def decode_value_fuel (fuel : Nat) (data : List Nat) (pos : Nat) :
    Option (Except Unit (Option Value × Nat)) :=
  match skipSingleFuel fuel (data.drop pos) pos with
  | none => none
  | some none => some (.ok (none, 0))
  | some (some (typ, length, pos1)) => some (decode_dispatch data typ length pos1)

/-- Rendered form of a decoded value, the string built by _format_decoded
of the source. Distinct constructors and arguments model distinct result
strings: unknown is the "?" of a failed decode, bool renders as True or
False, int as its decimal form, float as the %.6g rendering of its raw
bytes (uninterpreted), str as its text, bytes as its hex dump. -/
inductive Formatted where
  | unknown : Formatted
  | bool : Bool → Formatted
  | int : Int → Formatted
  | float : List Nat → Formatted
  | str : List Nat → Formatted
  | bytes : List Nat → Formatted
deriving DecidableEq

/-- Function _format_decoded of the source. -/
def _format_decoded : Option Value → Formatted
  | none => .unknown
  | some (.bool b) => .bool b
  | some (.float bs) => .float bs
  | some (.bytes bs) => .bytes bs
  | some (.int n) => .int n
  | some (.str s) => .str s

/-- parse_pybricks of the source: locate the manufacturer record, require
offset + 5 <= len(payload) (the comment of the source miscounts the
channel as 2 bytes; the actual read below is 2 + 1 + 1 = 4 bytes), read
the company id as uint16 LE and the channel as a single byte with the
struct format HB, reject a foreign company id, then decode one value from
the bytes after the channel. -/
def parse_pybricks (payload : List Nat) : Except Unit (Option (Nat × Formatted)) :=
  match find_mfr_offset payload with
  | .error e => .error e
  | .ok none => .ok none
  | .ok (some offset) =>
    if payload.length < offset + 5 then .ok none
    else
      let company_id := payload.getD offset 0 + 256 * payload.getD (offset + 1) 0
      let channel := payload.getD (offset + 2) 0
      if company_id ≠ PYBRICKS_COMPANY_ID then .ok none
      else
        let data := payload.drop (offset + 3)
        match decode_value data 0 with
        | .error e => .error e
        | .ok (value, _) => .ok (some (channel, _format_decoded value))

/-- Uppercase hex digit character for a value below 16. -/
def hexDigitCh (n : Nat) : Char :=
  if n < 10 then Char.ofNat (48 + n) else Char.ofNat (55 + n)

/-- Two-digit uppercase hex rendering of one byte, the f-string 02X of
the source (bytes are below 256). -/
def byteHex (b : Nat) : List Char := [hexDigitCh (b / 16), hexDigitCh (b % 16)]

/-- addr_str of the source: colon-joined uppercase hex of the reversed
6 address bytes. -/
def addr_str (addr : List Nat) : List Char :=
  List.intercalate [':'] (addr.reverse.map byteHex)

/-- Decimal digit character. -/
def digitCh (d : Nat) : Char := Char.ofNat (48 + d)

/-- Little-endian decimal digits of n, with an explicit iteration bound;
n itself bounds the digit count, so natDigitsGo (n + 1) n is exact. -/
def natDigitsGo : Nat → Nat → List Nat
  | 0, _ => []
  | fuel + 1, n => if n = 0 then [] else n % 10 :: natDigitsGo fuel (n / 10)

/-- Decimal rendering of a Nat, the str(channel) of the source. -/
def natDecimal (n : Nat) : List Char :=
  if n = 0 then ['0'] else ((natDigitsGo (n + 1) n).map digitCh).reverse

/-- Dedup key of the source: cached address string concatenated with the
decimal channel string (key = addr_s_ + str(channel)). -/
def dedupKey (addr_s : List Char) (channel : Nat) : List Char :=
  addr_s ++ natDecimal channel

/-- Lookup in an association list modeling a Python dict. -/
def dictGet {κ α : Type} [DecidableEq κ] : List (κ × α) → κ → Option α
  | [], _ => none
  | p :: rest, k => if p.1 = k then some p.2 else dictGet rest k

/-- Update or insert in an association list modeling a Python dict. -/
def dictSet {κ α : Type} [DecidableEq κ] : List (κ × α) → κ → α → List (κ × α)
  | [], k, v => [(k, v)]
  | p :: rest, k, v => if p.1 = k then (k, v) :: rest else p :: dictSet rest k v

/-- Removal from an association list, the dict.pop of the source. -/
def dictRemove {κ α : Type} [DecidableEq κ] : List (κ × α) → κ → List (κ × α)
  | [], _ => []
  | p :: rest, k => if p.1 = k then rest else p :: dictRemove rest k

/-- One _hub_registry entry of the source, the tuple
(tag, color, ema, name, addr_string). The EMA is modeled over the
rationals in place of Python floats. -/
structure HubEntry where
  tag : Char
  color : String
  ema : Option ℚ
  name : Option (List Nat)
  addr_s : List Char
deriving DecidableEq

/-- The mutable module state touched by process_queue of the source:
_hub_registry, _hub_counter, _name_cache and _last_value. -/
structure ObserverState where
  registry : List (List Nat × HubEntry)
  hub_counter : Nat
  name_cache : List (List Nat × List Nat)
  last_value : List (List Char × Formatted)
deriving DecidableEq

/-- One queued raw capture, the tuple
(addr_bytes, payload, rssi, adv_type) of the source. -/
structure Packet where
  addr : List Nat
  payload : List Nat
  rssi : Int
  adv_type : Nat
deriving DecidableEq

/-- The data content of one printed line (_format_line of the source);
pure text layout, the elapsed clock and the qualitative RSSI label are
not modeled. -/
structure OutputLine where
  tag : Char
  addr_s : List Char
  channel : Nat
  name : Option (List Nat)
  ema : ℚ
  decoded : Formatted
deriving DecidableEq

/-- EMA smoothing factor of the source (0.2). -/
def RSSI_EMA_ALPHA : ℚ := 1 / 5

/-- Python truthiness of the optional name string: both None and the
empty string are falsy. -/
def truthyName : Option (List Nat) → Bool
  | some nm => !nm.isEmpty
  | none => false

/-- hub_tag_color of the source: look up or create the registry entry of
an address; a new entry gets the next tag letter (cycling through 26),
the next color slot, no EMA, no name, and the address string computed
once. -/
def hub_tag_color_st (st : ObserverState) (addr : List Nat) : ObserverState :=
  match dictGet st.registry addr with
  | some _ => st
  | none =>
    let idx := st.hub_counter % COLORS.length
    let tag := Char.ofNat (65 + st.hub_counter % 26)
    let entry : HubEntry :=
      { tag := tag, color := COLORS.getD idx "", ema := none, name := none,
        addr_s := addr_str addr }
    { st with registry := dictSet st.registry addr entry,
              hub_counter := st.hub_counter + 1 }

/-- update_hub_name of the source: store the name once; a no-op when the
entry already has a name or the new name is empty. Every call site of the
source guards on membership, so a missing entry (where Python would raise
KeyError) is a no-op here. -/
def update_hub_name_st (st : ObserverState) (addr : List Nat) (nm : List Nat) :
    ObserverState :=
  match dictGet st.registry addr with
  | none => st
  | some e =>
    if e.name = none ∧ nm ≠ [] then
      { st with registry := dictSet st.registry addr { e with name := some nm } }
    else st

/-- The dedup decision of process_queue of the source (spec name
shouldEmit): under SUPPRESS_DUPLICATES, an unchanged value for the key
addr_s + str(channel) is suppressed without touching the cache, a changed
value is stored and emitted; with dedup off, always emit, cache untouched. -/
def shouldEmit (suppress : Bool) (cache : List (List Char × Formatted))
    (addr_s : List Char) (channel : Nat) (decoded : Formatted) :
    Bool × List (List Char × Formatted) :=
  if suppress then
    let key := dedupKey addr_s channel
    if dictGet cache key = some decoded then (false, cache)
    else (true, dictSet cache key decoded)
  else (true, cache)

/-- The print step of process_queue of the source: _format_line reads the
registry entry, update_rssi_ema folds the reading into the EMA (the first
reading seeds it), and one line is produced. -/
def emit_line (st : ObserverState) (p : Packet) (channel : Nat) (decoded : Formatted) :
    ObserverState × Option OutputLine :=
  match dictGet st.registry p.addr with
  | none => (st, none)
  | some e =>
    let ema := match e.ema with
      | none => (p.rssi : ℚ)
      | some old => RSSI_EMA_ALPHA * (p.rssi : ℚ) + (1 - RSSI_EMA_ALPHA) * old
    ({ st with registry := dictSet st.registry p.addr { e with ema := some ema } },
     some { tag := e.tag, addr_s := e.addr_s, channel := channel, name := e.name,
            ema := ema, decoded := decoded })

/-- One iteration of the drain loop of process_queue of the source,
processing a single dequeued packet against the observer state; returns
the new state and the line printed for this packet, if any. Counters are
not modeled. suppress is the SUPPRESS_DUPLICATES configuration. -/
def process_packet (suppress : Bool) (st : ObserverState) (p : Packet) :
    Except Unit (ObserverState × Option OutputLine) :=
  match find_local_name p.payload with
  | .error e => .error e
  | .ok name? =>
    if p.adv_type = 4 then
      .ok ((if truthyName name? then
              if (dictGet st.registry p.addr).isSome then
                update_hub_name_st st p.addr (name?.getD [])
              else
                { st with name_cache := dictSet st.name_cache p.addr (name?.getD []) }
            else st), none)
    else
      let st1 := if truthyName name? && (dictGet st.registry p.addr).isSome then
                   update_hub_name_st st p.addr (name?.getD [])
                 else st
      match parse_pybricks p.payload with
      | .error e => .error e
      | .ok none => .ok (st1, none)
      | .ok (some (channel, decoded)) =>
        let st2 := hub_tag_color_st st1 p.addr
        let st3 := match dictGet st2.name_cache p.addr with
          | some nm =>
            { update_hub_name_st st2 p.addr nm with
              name_cache := dictRemove st2.name_cache p.addr }
          | none => st2
        let addr_s := match dictGet st3.registry p.addr with
          | some e => e.addr_s
          | none => []
        let em := shouldEmit suppress st3.last_value addr_s channel decoded
        if em.1 then
          .ok (emit_line { st3 with last_value := em.2 } p channel decoded)
        else
          .ok ({ st3 with last_value := em.2 }, none)

/-- The bounded IRQ queue of the source, deque((), 180): a FIFO that, on
append beyond maxlen, drops elements from the left (the oldest). -/
structure BoundedQueue (α : Type) where
  maxlen : Nat
  items : List α
deriving DecidableEq

/-- deque.append of the source with maxlen semantics: keep the newest
maxlen elements. -/
def BoundedQueue.append {α : Type} (q : BoundedQueue α) (x : α) : BoundedQueue α :=
  let items := q.items ++ [x]
  { q with items := items.drop (items.length - q.maxlen) }

/-- deque.popleft of the source as a state change (process_queue only
calls it on a nonempty queue). -/
def BoundedQueue.popleft {α : Type} (q : BoundedQueue α) : BoundedQueue α :=
  { q with items := q.items.tail }

/-- An operation on the queue: an IRQ append or a drain popleft. -/
inductive QueueOp (α : Type) where
  | push : α → QueueOp α
  | pop : QueueOp α

/-- Apply one queue operation. -/
def BoundedQueue.applyOp {α : Type} (q : BoundedQueue α) : QueueOp α → BoundedQueue α
  | .push x => q.append x
  | .pop => q.popleft

/-- The empty queue of a given capacity, deque((), c). -/
def emptyQueue (α : Type) (c : Nat) : BoundedQueue α := { maxlen := c, items := [] }

/-- Supervisor counters of the main loop of the source: the IRQ event
total, its snapshot at the last baseline reset, and the timestamp (ms) of
the last watchdog baseline reset. -/
structure SupState where
  irq_count : Nat
  last_irq_count : Nat
  last_irq_check : Nat
deriving DecidableEq

/-- The supervisor checks of one main-loop iteration of the source:
first the preventive restart (fires when the events since the baseline
reach PREVENTIVE_RESTART_EVENTS, then resets baseline and watchdog
clock), then the watchdog (checked when WATCHDOG_SEC elapsed since the
last check; fires when the IRQ count did not move; the check resets
baseline and clock whether or not it fired). Returns the new state and
the flags (preventive fired, watchdog fired). -/
def supervisor_step (st : SupState) (now : Nat) : SupState × Bool × Bool :=
  let fire1 := decide (0 < PREVENTIVE_RESTART_EVENTS) &&
               decide (PREVENTIVE_RESTART_EVENTS ≤ st.irq_count - st.last_irq_count)
  let st1 := if fire1 then
               { st with last_irq_count := st.irq_count, last_irq_check := now }
             else st
  if WATCHDOG_SEC * 1000 ≤ now - st1.last_irq_check then
    let fire2 := decide (st1.irq_count = st1.last_irq_count)
    ({ st1 with last_irq_count := st1.irq_count, last_irq_check := now }, fire1, fire2)
  else (st1, fire1, false)

/-- One iteration of the main loop seen by the supervisor: arrivals IRQ
events are counted by the interrupt handler, then the supervisor checks
run at time now. -/
def run_step (st : SupState) (arrivals : Nat) (now : Nat) : SupState × Bool × Bool :=
  supervisor_step { st with irq_count := st.irq_count + arrivals } now

/-- Numeric value of a decimal digit character, the inverse of digitCh;
used to reason about injectivity of the decimal rendering. -/
def charVal (c : Char) : Nat := c.toNat - 48

/-- Value of a little-endian decimal digit list. -/
def ofDigitsLE (l : List Nat) : Nat := l.foldr (fun d acc => d + 10 * acc) 0

/-- The manufacturer-record walk never raises: every subscript it takes
is in bounds, for every iteration bound and start index. -/
theorem find_mfr_offset_go_ok (payload : List Nat) :
    ∀ fuel i, ∃ r, find_mfr_offset_go payload fuel i = .ok r := by
  intro fuel
  induction fuel with
  | zero => exact fun i => ⟨none, rfl⟩
  | succ fuel ih =>
    intro i
    by_cases hi : i < payload.length
    · by_cases h0 : payload[i] = 0
      · exact ⟨none, by simp [find_mfr_offset_go, hi, h0]⟩
      · by_cases hov : payload.length < i + 1 + payload[i]
        · exact ⟨none, by simp [find_mfr_offset_go, hi, h0, hov]⟩
        · have hi1 : i + 1 < payload.length := by omega
          by_cases hmfr : payload[i + 1] = AD_TYPE_MFR
          · by_cases h3 : 3 ≤ payload[i]
            · have hi2 : i + 2 < payload.length := by omega
              have hi3 : i + 3 < payload.length := by omega
              by_cases hb0 : payload[i + 2] = 0x97
              · by_cases hb1 : payload[i + 3] = 0x03
                · exact ⟨some (i + 2), by
                    simp [find_mfr_offset_go, hi, h0, hov, hi1, hmfr, h3, hi2, hi3,
                      hb0, hb1]⟩
                · obtain ⟨r, hr⟩ := ih (i + 1 + payload[i])
                  exact ⟨r, by
                    simp [find_mfr_offset_go, hi, h0, hov, hi1, hmfr, h3, hi2, hi3,
                      hb0, hb1, hr]⟩
              · obtain ⟨r, hr⟩ := ih (i + 1 + payload[i])
                exact ⟨r, by
                  simp [find_mfr_offset_go, hi, h0, hov, hi1, hmfr, h3, hi2, hb0, hr]⟩
            · obtain ⟨r, hr⟩ := ih (i + 1 + payload[i])
              exact ⟨r, by simp [find_mfr_offset_go, hi, h0, hov, hi1, hmfr, h3, hr]⟩
          · obtain ⟨r, hr⟩ := ih (i + 1 + payload[i])
            exact ⟨r, by simp [find_mfr_offset_go, hi, h0, hov, hi1, hmfr, hr]⟩
    · exact ⟨none, by simp [find_mfr_offset_go, hi]⟩

/-- The local-name walk never raises: every subscript it takes is in
bounds, for every iteration bound and start index. -/
theorem find_local_name_go_ok (payload : List Nat) :
    ∀ fuel i, ∃ r, find_local_name_go payload fuel i = .ok r := by
  intro fuel
  induction fuel with
  | zero => exact fun i => ⟨none, rfl⟩
  | succ fuel ih =>
    intro i
    by_cases hi : i < payload.length
    · by_cases h0 : payload[i] = 0
      · exact ⟨none, by simp [find_local_name_go, hi, h0]⟩
      · by_cases hov : payload.length < i + 1 + payload[i]
        · exact ⟨none, by simp [find_local_name_go, hi, h0, hov]⟩
        · have hi1 : i + 1 < payload.length := by omega
          by_cases hname : payload[i + 1] = 0x08 ∨ payload[i + 1] = 0x09
          · by_cases hv : utf8Valid ((payload.drop (i + 2)).take (payload[i] - 1)) = true
            · exact ⟨some ((payload.drop (i + 2)).take (payload[i] - 1)), by
                simp [find_local_name_go, hi, h0, hov, hi1, hname, hv]⟩
            · exact ⟨none, by simp [find_local_name_go, hi, h0, hov, hi1, hname, hv]⟩
          · obtain ⟨r, hr⟩ := ih (i + 1 + payload[i])
            exact ⟨r, by simp [find_local_name_go, hi, h0, hov, hi1, hname, hr]⟩
    · exact ⟨none, by simp [find_local_name_go, hi]⟩

/-- Past the end of the payload, the manufacturer walk answers not-found
at every iteration bound. -/
theorem find_mfr_offset_go_at_end (payload : List Nat) (i : Nat)
    (h : payload.length ≤ i) :
    ∀ fuel, find_mfr_offset_go payload fuel i = .ok none
  | 0 => rfl
  | fuel + 1 => by simp [find_mfr_offset_go, show ¬ i < payload.length by omega]

/-- Past the end of the payload, the local-name walk answers not-found at
every iteration bound. -/
theorem find_local_name_go_at_end (payload : List Nat) (i : Nat)
    (h : payload.length ≤ i) :
    ∀ fuel, find_local_name_go payload fuel i = .ok none
  | 0 => rfl
  | fuel + 1 => by simp [find_local_name_go, show ¬ i < payload.length by omega]

/-- Fuel sufficiency for the manufacturer walk: any two iteration bounds
of at least payload.length - i agree, because every recursing iteration
advances i by at least 2 while i stays below the length. In particular
the bound payload.length + 1 used by find_mfr_offset computes the value
of the unbounded while loop of the source. -/
theorem find_mfr_offset_go_stable (payload : List Nat) :
    ∀ n i f g, payload.length - i ≤ n → n ≤ f → n ≤ g →
      find_mfr_offset_go payload f i = find_mfr_offset_go payload g i := by
  intro n
  induction n with
  | zero =>
    intro i f g h _ _
    rw [find_mfr_offset_go_at_end payload i (by omega),
      find_mfr_offset_go_at_end payload i (by omega)]
  | succ n ih =>
    intro i f g h hf hg
    by_cases hi : i < payload.length
    · obtain ⟨f0, rfl⟩ : ∃ f0, f = f0 + 1 := ⟨f - 1, by omega⟩
      obtain ⟨g0, rfl⟩ : ∃ g0, g = g0 + 1 := ⟨g - 1, by omega⟩
      by_cases h0 : payload[i] = 0
      · simp [find_mfr_offset_go, hi, h0]
      · by_cases hov : payload.length < i + 1 + payload[i]
        · simp [find_mfr_offset_go, hi, h0, hov]
        · have hi1 : i + 1 < payload.length := by omega
          by_cases hmfr : payload[i + 1] = AD_TYPE_MFR
          · by_cases h3 : 3 ≤ payload[i]
            · have hi2 : i + 2 < payload.length := by omega
              have hi3 : i + 3 < payload.length := by omega
              by_cases hb0 : payload[i + 2] = 0x97
              · by_cases hb1 : payload[i + 3] = 0x03
                · simp [find_mfr_offset_go, hi, h0, hov, hi1, hmfr, h3, hi2, hi3,
                    hb0, hb1]
                · simp only [find_mfr_offset_go]
                  simp [hi, h0, hov, hi1, hmfr, h3, hi2, hi3, hb0, hb1]
                  apply ih <;> omega
              · simp only [find_mfr_offset_go]
                simp [hi, h0, hov, hi1, hmfr, h3, hi2, hb0]
                apply ih <;> omega
            · simp only [find_mfr_offset_go]
              simp [hi, h0, hov, hi1, hmfr, h3]
              apply ih <;> omega
          · simp only [find_mfr_offset_go]
            simp [hi, h0, hov, hi1, hmfr]
            apply ih <;> omega
    · rw [find_mfr_offset_go_at_end payload i (by omega),
        find_mfr_offset_go_at_end payload i (by omega)]

/-- Fuel sufficiency for the local-name walk, as for the manufacturer
walk. -/
theorem find_local_name_go_stable (payload : List Nat) :
    ∀ n i f g, payload.length - i ≤ n → n ≤ f → n ≤ g →
      find_local_name_go payload f i = find_local_name_go payload g i := by
  intro n
  induction n with
  | zero =>
    intro i f g h _ _
    rw [find_local_name_go_at_end payload i (by omega),
      find_local_name_go_at_end payload i (by omega)]
  | succ n ih =>
    intro i f g h hf hg
    by_cases hi : i < payload.length
    · obtain ⟨f0, rfl⟩ : ∃ f0, f = f0 + 1 := ⟨f - 1, by omega⟩
      obtain ⟨g0, rfl⟩ : ∃ g0, g = g0 + 1 := ⟨g - 1, by omega⟩
      by_cases h0 : payload[i] = 0
      · simp [find_local_name_go, hi, h0]
      · by_cases hov : payload.length < i + 1 + payload[i]
        · simp [find_local_name_go, hi, h0, hov]
        · have hi1 : i + 1 < payload.length := by omega
          by_cases hname : payload[i + 1] = 0x08 ∨ payload[i + 1] = 0x09
          · simp [find_local_name_go, hi, h0, hov, hi1, hname]
          · simp only [find_local_name_go]
            simp [hi, h0, hov, hi1, hname]
            apply ih <;> omega
    · rw [find_local_name_go_at_end payload i (by omega),
        find_local_name_go_at_end payload i (by omega)]

/-- When the manufacturer walk reports an offset, the two bytes there are
the Pybricks company identifier 0x97 0x03 and lie inside the payload (the
walk verified them before accepting the record). -/
theorem find_mfr_offset_go_company (payload : List Nat) :
    ∀ fuel i off, find_mfr_offset_go payload fuel i = .ok (some off) →
      off + 2 ≤ payload.length ∧ payload.getD off 0 = 0x97 ∧
        payload.getD (off + 1) 0 = 0x03 := by
  intro fuel
  induction fuel with
  | zero => intro i off h; simp [find_mfr_offset_go] at h
  | succ fuel ih =>
    intro i off h
    by_cases hi : i < payload.length
    · by_cases h0 : payload[i] = 0
      · simp [find_mfr_offset_go, hi, h0] at h
      · by_cases hov : payload.length < i + 1 + payload[i]
        · simp [find_mfr_offset_go, hi, h0, hov] at h
        · have hi1 : i + 1 < payload.length := by omega
          by_cases hmfr : payload[i + 1] = AD_TYPE_MFR
          · by_cases h3 : 3 ≤ payload[i]
            · have hi2 : i + 2 < payload.length := by omega
              have hi3 : i + 3 < payload.length := by omega
              by_cases hb0 : payload[i + 2] = 0x97
              · by_cases hb1 : payload[i + 3] = 0x03
                · simp [find_mfr_offset_go, hi, h0, hov, hi1, hmfr, h3, hi2, hi3,
                    hb0, hb1] at h
                  subst h
                  refine ⟨by omega, ?_, ?_⟩
                  · rw [List.getD_eq_getElem payload 0 hi2]; exact hb0
                  · rw [show i + 2 + 1 = i + 3 by omega,
                      List.getD_eq_getElem payload 0 hi3]
                    exact hb1
                · simp only [find_mfr_offset_go] at h
                  simp [hi, h0, hov, hi1, hmfr, h3, hi2, hi3, hb0, hb1] at h
                  exact ih _ _ h
              · simp only [find_mfr_offset_go] at h
                simp [hi, h0, hov, hi1, hmfr, h3, hi2, hb0] at h
                exact ih _ _ h
            · simp only [find_mfr_offset_go] at h
              simp [hi, h0, hov, hi1, hmfr, h3] at h
              exact ih _ _ h
          · simp only [find_mfr_offset_go] at h
            simp [hi, h0, hov, hi1, hmfr] at h
            exact ih _ _ h
    · rw [find_mfr_offset_go_at_end payload i (by omega)] at h
      simp at h

/-- A zero length byte ends the manufacturer walk with not-found. -/
theorem find_mfr_offset_go_zero_len (payload : List Nat) (fuel i : Nat)
    (h : payload.get? i = some 0) :
    find_mfr_offset_go payload (fuel + 1) i = .ok none := by
  rw [List.get?_eq_getElem?] at h
  obtain ⟨hi, h2⟩ := List.getElem?_eq_some_iff.mp h
  simp [find_mfr_offset_go, hi, h2]

/-- A zero length byte ends the local-name walk with not-found. -/
theorem find_local_name_go_zero_len (payload : List Nat) (fuel i : Nat)
    (h : payload.get? i = some 0) :
    find_local_name_go payload (fuel + 1) i = .ok none := by
  rw [List.get?_eq_getElem?] at h
  obtain ⟨hi, h2⟩ := List.getElem?_eq_some_iff.mp h
  simp [find_local_name_go, hi, h2]

/-- A record whose declared length overruns the payload ends the
manufacturer walk with not-found, without accepting the record. -/
theorem find_mfr_offset_go_overrun (payload : List Nat) (fuel i L : Nat)
    (h : payload.get? i = some L) (h0 : L ≠ 0)
    (hov : payload.length < i + 1 + L) :
    find_mfr_offset_go payload (fuel + 1) i = .ok none := by
  rw [List.get?_eq_getElem?] at h
  obtain ⟨hi, h2⟩ := List.getElem?_eq_some_iff.mp h
  simp [find_mfr_offset_go, hi, h2, h0, hov]

/-- A record whose declared length overruns the payload ends the
local-name walk with not-found, without accepting the record. -/
theorem find_local_name_go_overrun (payload : List Nat) (fuel i L : Nat)
    (h : payload.get? i = some L) (h0 : L ≠ 0)
    (hov : payload.length < i + 1 + L) :
    find_local_name_go payload (fuel + 1) i = .ok none := by
  rw [List.get?_eq_getElem?] at h
  obtain ⟨hi, h2⟩ := List.getElem?_eq_some_iff.mp h
  simp [find_local_name_go, hi, h2, h0, hov]

/-- Shifting the absolute-position argument of the header loop shifts
only the reported position, never the accepted header. -/
theorem skipSingle_pos_shift (l : List Nat) :
    ∀ p n, skipSingle l (p + n) =
      (skipSingle l p).map (fun r => (r.1, r.2.1, r.2.2 + n)) := by
  induction l with
  | nil => intro p n; rfl
  | cons b rest ih =>
    intro p n
    by_cases hb : b &&& _TYPE_MASK = _T_SINGLE
    · simp only [skipSingle, hb, if_pos]
      rw [show p + n + 1 = p + 1 + n by omega]
      exact ih (p + 1) n
    · simp only [skipSingle, hb, if_neg, Option.map_some]
      simp
      omega

/-- Wrapper bytes prefixed to the data are skipped by the header loop:
the walk lands on the same header, at a position moved by the number of
wrappers. -/
theorem skipSingle_replicate (N : Nat) (l : List Nat) :
    ∀ p, skipSingle (List.replicate N 0 ++ l) p = skipSingle l (p + N) := by
  induction N with
  | zero => intro p; simp
  | succ N ih =>
    intro p
    have h0 : (0 : Nat) &&& _TYPE_MASK = _T_SINGLE := rfl
    rw [show List.replicate (N + 1) (0 : Nat) ++ l = 0 :: (List.replicate N 0 ++ l)
      by simp [List.replicate_succ]]
    simp only [skipSingle, h0, if_pos]
    rw [ih (p + 1), show p + 1 + N = p + (N + 1) by omega]

/-- Dropping past a replicated prefix reaches the same suffix. -/
theorem drop_replicate_append (N : Nat) (l : List Nat) :
    ∀ q, (List.replicate N (0 : Nat) ++ l).drop (q + N) = l.drop q := by
  induction N with
  | zero => intro q; simp
  | succ N ih =>
    intro q
    rw [show List.replicate (N + 1) (0 : Nat) ++ l = 0 :: (List.replicate N 0 ++ l)
      by simp [List.replicate_succ]]
    rw [show q + (N + 1) = (q + N) + 1 by omega, List.drop_succ_cons]
    exact ih q

/-- Function _decode_int is invariant under a wrapper prefix with a matching
position shift. -/
theorem _decode_int_shift (N : Nat) (data : List Nat) (q ln : Nat) :
    _decode_int (List.replicate N 0 ++ data) (q + N) ln = _decode_int data q ln := by
  unfold _decode_int
  cases _INT_FMTS ln with
  | none => rfl
  | some size =>
    by_cases hc : data.length < q + size
    · have hc2 : N + data.length < q + N + size := by omega
      simp [hc, hc2]
    · have hc2 : ¬ N + data.length < q + N + size := by omega
      simp [hc, hc2, drop_replicate_append]

/-- Function _decode_float is invariant under a wrapper prefix with a matching
position shift. -/
theorem _decode_float_shift (N : Nat) (data : List Nat) (q : Nat) :
    _decode_float (List.replicate N 0 ++ data) (q + N) = _decode_float data q := by
  unfold _decode_float
  by_cases hc : data.length < q + 4
  · have hc2 : N + data.length < q + N + 4 := by omega
    simp [hc, hc2]
  · have hc2 : ¬ N + data.length < q + N + 4 := by omega
    simp [hc, hc2, drop_replicate_append]

/-- Function _decode_str is invariant under a wrapper prefix with a matching
position shift. -/
theorem _decode_str_shift (N : Nat) (data : List Nat) (q ln : Nat) :
    _decode_str (List.replicate N 0 ++ data) (q + N) ln = _decode_str data q ln := by
  unfold _decode_str
  by_cases hc : data.length < q + ln
  · have hc2 : N + data.length < q + N + ln := by omega
    simp [hc, hc2]
  · have hc2 : ¬ N + data.length < q + N + ln := by omega
    simp [hc, hc2, drop_replicate_append]

/-- Function _decode_bytes is invariant under a wrapper prefix with a matching
position shift. -/
theorem _decode_bytes_shift (N : Nat) (data : List Nat) (q ln : Nat) :
    _decode_bytes (List.replicate N 0 ++ data) (q + N) ln = _decode_bytes data q ln := by
  unfold _decode_bytes
  by_cases hc : data.length < q + ln
  · have hc2 : N + data.length < q + N + ln := by omega
    simp [hc, hc2]
  · have hc2 : ¬ N + data.length < q + N + ln := by omega
    simp [hc, hc2, drop_replicate_append]

/-- The header dispatch is invariant under a wrapper prefix with a
matching position shift. -/
theorem decode_dispatch_shift (N : Nat) (data : List Nat) (t ln q : Nat) :
    decode_dispatch (List.replicate N 0 ++ data) t ln (q + N) =
      decode_dispatch data t ln q := by
  unfold decode_dispatch
  simp only [_decode_int_shift, _decode_float_shift, _decode_str_shift,
    _decode_bytes_shift]

/-- The fuel-instrumented header loop agrees with the plain one whenever
the bound exceeds the number of remaining bytes. -/
theorem skipSingleFuel_eq (s : List Nat) :
    ∀ fuel pos, s.length < fuel → skipSingleFuel fuel s pos = some (skipSingle s pos) := by
  induction s with
  | nil =>
    intro fuel pos h
    obtain ⟨f0, rfl⟩ : ∃ f0, fuel = f0 + 1 := ⟨fuel - 1, by omega⟩
    rfl
  | cons b rest ih =>
    intro fuel pos h
    obtain ⟨f0, rfl⟩ : ∃ f0, fuel = f0 + 1 := ⟨fuel - 1, by omega⟩
    by_cases hb : b &&& _TYPE_MASK = _T_SINGLE
    · simp only [skipSingleFuel, skipSingle, hb, if_pos]
      exact ih f0 (pos + 1) (by simp at h; omega)
    · simp [skipSingleFuel, skipSingle, hb]

/-- Reading back the key just written. -/
theorem dictGet_dictSet_self {κ α : Type} [DecidableEq κ]
    (m : List (κ × α)) (k : κ) (v : α) : dictGet (dictSet m k v) k = some v := by
  induction m with
  | nil => simp [dictGet, dictSet]
  | cons p rest ih =>
    by_cases hp : p.1 = k
    · simp [dictGet, dictSet, hp]
    · simp [dictGet, dictSet, hp, ih]

/-- Writing one key leaves every other key unchanged. -/
theorem dictGet_dictSet_ne {κ α : Type} [DecidableEq κ]
    (m : List (κ × α)) (k k2 : κ) (v : α) (h : k2 ≠ k) :
    dictGet (dictSet m k v) k2 = dictGet m k2 := by
  induction m with
  | nil => simp [dictGet, dictSet, Ne.symm h]
  | cons p rest ih =>
    by_cases hp : p.1 = k
    · simp [dictGet, dictSet, hp, Ne.symm h]
    · simp [dictGet, dictSet, hp, ih]

/-- Every digit produced by the bounded decimal loop is below 10. -/
theorem natDigitsGo_lt_ten :
    ∀ fuel n d, d ∈ natDigitsGo fuel n → d < 10 := by
  intro fuel
  induction fuel with
  | zero => intro n d hd; simp [natDigitsGo] at hd
  | succ fuel ih =>
    intro n d hd
    by_cases hn : n = 0
    · simp [natDigitsGo, hn] at hd
    · simp [natDigitsGo, hn] at hd
      rcases hd with hd | hd
      · omega
      · exact ih _ _ hd

/-- The bounded decimal loop is exact once the bound reaches n: reading
the digits back little-endian returns n. -/
theorem ofDigitsLE_natDigitsGo :
    ∀ fuel n, n ≤ fuel → ofDigitsLE (natDigitsGo fuel n) = n := by
  intro fuel
  induction fuel with
  | zero => intro n h; interval_cases n; rfl
  | succ fuel ih =>
    intro n h
    by_cases hn : n = 0
    · simp [natDigitsGo, hn, ofDigitsLE]
    · have hdiv : n / 10 ≤ fuel := by omega
      simp [natDigitsGo, hn, ofDigitsLE]
      have := ih (n / 10) hdiv
      simp [ofDigitsLE] at this
      rw [this]
      omega

/-- charVal inverts digitCh on decimal digits. -/
theorem charVal_digitCh (d : Nat) (h : d < 10) : charVal (digitCh d) = d := by
  interval_cases d <;> rfl

/-- The decimal rendering can be read back: natDecimal is reversible. -/
theorem recover_natDecimal (n : Nat) :
    ofDigitsLE (((natDecimal n).reverse).map charVal) = n := by
  by_cases hn : n = 0
  · subst hn; rfl
  · have hpt : ∀ d ∈ natDigitsGo (n + 1) n, (charVal ∘ digitCh) d = d := fun d hd =>
      charVal_digitCh d (natDigitsGo_lt_ten _ _ _ hd)
    have hmap : (natDigitsGo (n + 1) n).map (charVal ∘ digitCh) = natDigitsGo (n + 1) n := by
      rw [List.map_congr_left hpt]
      simp
    rw [natDecimal, if_neg hn, List.reverse_reverse, List.map_map, hmap]
    exact ofDigitsLE_natDigitsGo (n + 1) n (by omega)

/-- Distinct numbers have distinct decimal renderings. -/
theorem natDecimal_injective (a b : Nat) (h : natDecimal a = natDecimal b) : a = b := by
  have ha := recover_natDecimal a
  rw [h, recover_natDecimal b] at ha
  exact ha.symm

/-- For a fixed address string, distinct channels produce distinct dedup
keys: the channel history of one channel can never be consulted for
another. -/
theorem dedupKey_channel_injective (addr_s : List Char) (ch ch2 : Nat)
    (h : dedupKey addr_s ch = dedupKey addr_s ch2) : ch = ch2 :=
  natDecimal_injective ch ch2 (List.append_cancel_left h)

/-- Overwriting an existing entry with one that differs only in its name
field leaves the tag, color, EMA and address text of every entry (and the
key set) unchanged. -/
theorem registry_shape_dictSet (m : List (List Nat × HubEntry)) (k : List Nat)
    (e v : HubEntry) (hget : dictGet m k = some e)
    (htag : v.tag = e.tag) (hcol : v.color = e.color) (hema : v.ema = e.ema)
    (haddr : v.addr_s = e.addr_s) :
    (dictSet m k v).map (fun p => (p.1, p.2.tag, p.2.color, p.2.ema, p.2.addr_s)) =
      m.map (fun p => (p.1, p.2.tag, p.2.color, p.2.ema, p.2.addr_s)) := by
  induction m with
  | nil => simp [dictGet] at hget
  | cons p rest ih =>
    by_cases hp : p.1 = k
    · have hpe : p.2 = e := by
        simp [dictGet, hp] at hget
        exact hget
      simp [dictSet, hp, htag, hcol, hema, haddr, hpe]
    · have hget2 : dictGet rest k = some e := by
        simp [dictGet, hp] at hget
        exact hget
      simp [dictSet, hp, ih hget2]

/-- update_hub_name_st can change only the name field of one registry
entry: keys, tags, colors, EMAs, address texts, the hub counter, the name
cache and the dedup cache all stay as they were. -/
theorem update_hub_name_st_shape (st : ObserverState) (addr : List Nat) (nm : List Nat) :
    (update_hub_name_st st addr nm).registry.map
        (fun p => (p.1, p.2.tag, p.2.color, p.2.ema, p.2.addr_s)) =
      st.registry.map (fun p => (p.1, p.2.tag, p.2.color, p.2.ema, p.2.addr_s)) ∧
    (update_hub_name_st st addr nm).hub_counter = st.hub_counter ∧
    (update_hub_name_st st addr nm).name_cache = st.name_cache ∧
    (update_hub_name_st st addr nm).last_value = st.last_value := by
  unfold update_hub_name_st
  cases hget : dictGet st.registry addr with
  | none => exact ⟨rfl, rfl, rfl, rfl⟩
  | some e =>
    dsimp only
    by_cases hc : e.name = none ∧ nm ≠ []
    · rw [if_pos hc]
      exact ⟨registry_shape_dictSet st.registry addr e _ hget rfl rfl rfl rfl,
        rfl, rfl, rfl⟩
    · rw [if_neg hc]
      exact ⟨rfl, rfl, rfl, rfl⟩

/-- One append never leaves more than maxlen elements in the queue. -/
theorem BoundedQueue.length_append_le {α : Type} (q : BoundedQueue α) (x : α) :
    (q.append x).items.length ≤ q.maxlen := by
  unfold BoundedQueue.append
  simp
  omega

/-- Applying any operation keeps the capacity field. -/
theorem BoundedQueue.maxlen_applyOp {α : Type} (q : BoundedQueue α) (op : QueueOp α) :
    (q.applyOp op).maxlen = q.maxlen := by
  cases op <;> rfl

/-- Any sequence of pushes and pops keeps the queue within capacity and
the capacity itself unchanged. -/
theorem BoundedQueue.foldl_applyOp_invariant {α : Type} (ops : List (QueueOp α)) :
    ∀ q : BoundedQueue α, q.items.length ≤ q.maxlen →
      (ops.foldl BoundedQueue.applyOp q).maxlen = q.maxlen ∧
      (ops.foldl BoundedQueue.applyOp q).items.length ≤ q.maxlen := by
  induction ops with
  | nil => exact fun q h => ⟨rfl, h⟩
  | cons op rest ih =>
    intro q h
    have hstep : (q.applyOp op).items.length ≤ (q.applyOp op).maxlen := by
      cases op with
      | push x => exact q.length_append_le x
      | pop =>
        simp only [BoundedQueue.applyOp, BoundedQueue.popleft]
        calc q.items.tail.length ≤ q.items.length := by
              simp [List.length_tail]
          _ ≤ q.maxlen := h
    have hm := q.maxlen_applyOp op
    obtain ⟨h1, h2⟩ := ih (q.applyOp op) hstep
    rw [List.foldl_cons]
    exact ⟨h1.trans hm, by rw [hm] at h2; exact h2⟩

/-- Re-dropping after appending more elements is the same as one drop at
the end: keeping the newest m of (keep newest m of l) ++ rest is keeping
the newest m of l ++ rest. -/
theorem drop_keep_absorb {α : Type} (l rest : List α) (m : Nat) :
    ((l.drop (l.length - m)) ++ rest).drop
        ((l.drop (l.length - m)).length + rest.length - m) =
      (l ++ rest).drop (l.length + rest.length - m) := by
  rw [List.drop_append_eq_append_drop, List.drop_append_eq_append_drop,
    List.drop_drop]
  have hlen : (l.drop (l.length - m)).length = l.length - (l.length - m) := by simp
  rw [hlen]
  congr 1
  · congr 1
    omega
  · congr 1
    omega

/-- The items after one append, spelled out. -/
theorem BoundedQueue.append_items {α : Type} (q : BoundedQueue α) (x : α) :
    (q.append x).items = (q.items ++ [x]).drop (q.items.length + 1 - q.maxlen) := by
  unfold BoundedQueue.append
  simp

/-- Folding appends over the queue keeps exactly the newest maxlen
elements of the whole input stream: drop-oldest overflow, element by
element, equals one final drop of the oldest excess. -/
theorem BoundedQueue.foldl_append_items {α : Type} (xs : List α) :
    ∀ q : BoundedQueue α, q.items.length ≤ q.maxlen →
      (xs.foldl BoundedQueue.append q).items =
        (q.items ++ xs).drop (q.items.length + xs.length - q.maxlen) := by
  induction xs with
  | nil =>
    intro q h
    rw [List.foldl_nil, List.append_nil,
      show q.items.length + List.length ([] : List α) - q.maxlen = 0 from by
        simp
        omega,
      List.drop_zero]
  | cons x rest ih =>
    intro q h
    rw [List.foldl_cons, ih (q.append x) (q.length_append_le x),
      BoundedQueue.append_items]
    have hm : (q.append x).maxlen = q.maxlen := rfl
    rw [hm]
    convert drop_keep_absorb (q.items ++ [x]) rest q.maxlen using 2 <;>
      (simp; try omega)

/-- Claim C4: for every payload of length at most 31, both record walks
stop on a zero length byte, stop with not-found when a declared record
length overruns the remaining payload without accepting that record, and
never take a subscript outside the payload bounds: neither walk, from the
start or from any intermediate index at any iteration bound, ever returns
the modeled IndexError. -/
theorem C4_record_walker_safety (payload : List Nat) (_hlen : payload.length ≤ 31) :
    ((∃ r, find_mfr_offset payload = .ok r) ∧
      (∃ r, find_local_name payload = .ok r)) ∧
    (∀ fuel i, (∃ r, find_mfr_offset_go payload fuel i = .ok r) ∧
      (∃ r, find_local_name_go payload fuel i = .ok r)) ∧
    (∀ fuel i, payload.get? i = some 0 →
      find_mfr_offset_go payload (fuel + 1) i = .ok none ∧
      find_local_name_go payload (fuel + 1) i = .ok none) ∧
    (∀ fuel i L, payload.get? i = some L → L ≠ 0 → payload.length < i + 1 + L →
      find_mfr_offset_go payload (fuel + 1) i = .ok none ∧
      find_local_name_go payload (fuel + 1) i = .ok none) :=
  ⟨⟨find_mfr_offset_go_ok payload _ 0, find_local_name_go_ok payload _ 0⟩,
    fun fuel i => ⟨find_mfr_offset_go_ok payload fuel i,
      find_local_name_go_ok payload fuel i⟩,
    fun fuel i h => ⟨find_mfr_offset_go_zero_len payload fuel i h,
      find_local_name_go_zero_len payload fuel i h⟩,
    fun fuel i L h h0 hov => ⟨find_mfr_offset_go_overrun payload fuel i L h h0 hov,
      find_local_name_go_overrun payload fuel i L h h0 hov⟩⟩

/-- Claim C4, witness at a concrete payload. -/
theorem C4_record_walker_safety_witness :
    ([2, 255, 151] : List Nat).length ≤ 31 ∧
    ((∃ r, find_mfr_offset [2, 255, 151] = .ok r) ∧
      (∃ r, find_local_name [2, 255, 151] = .ok r)) :=
  ⟨by decide, (C4_record_walker_safety [2, 255, 151] (by decide)).1⟩

/-- Claim C1 (counterexample): this payload has a vendor block at offset
2 with exactly 4 bytes at and beyond the offset (identifier 0x97 0x03,
channel 0x05, header 0x20 = TRUE literal), which the claim says is
accepted; parse_pybricks nevertheless answers NotAPacket, because the
source demands offset + 5 <= len(payload). -/
theorem C1_counterexample :
    find_mfr_offset [4, 255, 151, 3, 5, 32] = .ok (some 2) ∧
    ([4, 255, 151, 3, 5, 32] : List Nat).length - 2 = 4 ∧
    parse_pybricks [4, 255, 151, 3, 5, 32] = .ok none := by decide

/-- Claim C1 (amended): when the Record Walker locates the vendor block
at some offset, parse_pybricks proceeds past the NotAPacket length check
if and only if at least 5 bytes are available at and beyond the offset
(one more than the 4 bytes actually read for identifier, channel and
header). The walker has already verified the identifier, so with enough
bytes the result is an accepted packet or a decode exception, never
NotAPacket. -/
theorem C1_parse_needs_five_bytes (payload : List Nat) (offset : Nat)
    (hfind : find_mfr_offset payload = .ok (some offset)) :
    (parse_pybricks payload ≠ .ok none) ↔ offset + 5 ≤ payload.length := by
  obtain ⟨hb, h97, h03⟩ :=
    find_mfr_offset_go_company payload (payload.length + 1) 0 offset hfind
  unfold parse_pybricks
  rw [hfind]
  dsimp only
  by_cases hlen : payload.length < offset + 5
  · rw [if_pos hlen]
    simp
    omega
  · rw [if_neg hlen]
    have hcid : ¬ payload.getD offset 0 + 256 * payload.getD (offset + 1) 0 ≠
        PYBRICKS_COMPANY_ID := by
      rw [h97, h03]
      decide
    rw [if_neg hcid]
    have hfive : offset + 5 ≤ payload.length := by omega
    simp only [hfive, iff_true]
    cases hdec : decode_value (payload.drop (offset + 3)) 0 with
    | error e => simp [hdec]
    | ok p =>
      obtain ⟨v, n⟩ := p
      simp [hdec]

/-- Claim C1 (amended), witness: a payload with 5 bytes at and beyond the
vendor-block offset. -/
theorem C1_parse_needs_five_bytes_witness :
    (parse_pybricks [6, 255, 151, 3, 5, 0, 32] ≠ .ok none) ↔
      2 + 5 ≤ ([6, 255, 151, 3, 5, 0, 32] : List Nat).length :=
  C1_parse_needs_five_bytes [6, 255, 151, 3, 5, 0, 32] 2 (by decide)

/-- Claim C5: for every accepted vendor packet the channel is exactly the
single byte at offset + 2, immediately after the 16-bit little-endian
identifier; whatever bytes follow, the parse result (when no decode
exception intervenes) carries that byte as the channel, so channel byte
0xFF always decodes to 255. -/
theorem C5_channel_single_byte (payload : List Nat) (offset : Nat)
    (hfind : find_mfr_offset payload = .ok (some offset))
    (hlen : offset + 5 ≤ payload.length) :
    (∃ fmt, parse_pybricks payload = .ok (some (payload.getD (offset + 2) 0, fmt))) ∨
      parse_pybricks payload = .error () := by
  obtain ⟨hb, h97, h03⟩ :=
    find_mfr_offset_go_company payload (payload.length + 1) 0 offset hfind
  unfold parse_pybricks
  rw [hfind]
  dsimp only
  rw [if_neg (by omega)]
  have hcid : ¬ payload.getD offset 0 + 256 * payload.getD (offset + 1) 0 ≠
      PYBRICKS_COMPANY_ID := by
    rw [h97, h03]
    decide
  rw [if_neg hcid]
  cases hdec : decode_value (payload.drop (offset + 3)) 0 with
  | error e =>
    right
    cases e
    simp [hdec]
  | ok p =>
    obtain ⟨v, n⟩ := p
    left
    exact ⟨_format_decoded v, by simp [hdec]⟩

/-- Claim C5, witness: channel byte 0xFF decodes to channel 255. -/
theorem C5_channel_single_byte_witness :
    (∃ fmt, parse_pybricks [6, 255, 151, 3, 255, 0, 32] = .ok (some (255, fmt))) ∨
      parse_pybricks [6, 255, 151, 3, 255, 0, 32] = .error () :=
  C5_channel_single_byte [6, 255, 151, 3, 255, 0, 32] 2 (by decide) (by decide)

/-- Claim C2 (code bug): decode_value is not total. A text value whose
bytes are invalid UTF-8 raises UnicodeError (modeled as Except.error),
because _decode_str calls decode without the try/except that
find_local_name uses; the claim and the spec say every failure path
returns Absent with zero bytes consumed. Failing input: header 0xA1
(type STR, length 1) followed by the lone continuation byte 0x80. The
other failure paths evaluated here (truncated int, unsupported int
width, unknown tag, empty input) do return (Absent, 0) as claimed. -/
theorem C2_invalid_utf8_text_raises :
    decode_value [0xA1, 0x80] 0 = .error () ∧
    _decode_str [0xA1, 0x80] 1 1 = .error () ∧
    decode_value [0x61] 0 = .ok (none, 0) ∧
    decode_value [0x63, 1, 1, 1] 0 = .ok (none, 0) ∧
    decode_value [0xE5, 1, 2] 0 = .ok (none, 0) ∧
    decode_value [] 0 = .ok (none, 0) := by decide

/-- Claim C6 (counterexample): the reported consumption count does not
grow with wrapper depth. Wrapping the int8 encoding 0x61 0x2A once in the
single-object tag still reports 1 consumed byte, not 1 + 1 as the claim
predicts: the count never includes header bytes. -/
theorem C6_counterexample :
    decode_value [0x00, 0x61, 0x2A] 0 = .ok (some (.int 42), 1) ∧
    decode_value [0x61, 0x2A] 0 = .ok (some (.int 42), 1) ∧
    (1 : Nat) ≠ 1 + 1 := by decide

/-- Claim C6 (amended): prefixing an encoding with N single-object
wrapper header bytes changes nothing in the decode result: the same
decoded value and exactly the same reported consumption count as N = 0,
because the count includes only data bytes and never any header byte. -/
theorem C6_wrapper_transparent (N : Nat) (data : List Nat) :
    decode_value (List.replicate N 0 ++ data) 0 = decode_value data 0 := by
  unfold decode_value
  rw [List.drop_zero, List.drop_zero, skipSingle_replicate,
    skipSingle_pos_shift data 0 N]
  cases h : skipSingle data 0 with
  | none => rfl
  | some r =>
    obtain ⟨t, ln, q⟩ := r
    simp only [Option.map_some]
    exact decode_dispatch_shift N data t ln q

/-- Claim C10: decode_value terminates on every input. The wrapper loop
advances the cursor one byte per wrapper and stops at the end of the
data, so any iteration bound exceeding data.length - pos reproduces
decode_value exactly: no input, in particular none made only of wrapper
bytes, needs more iterations than bytes. -/
theorem C10_decode_value_terminates (data : List Nat) (pos fuel : Nat)
    (h : data.length - pos < fuel) :
    decode_value_fuel fuel data pos = some (decode_value data pos) := by
  unfold decode_value_fuel decode_value
  rw [skipSingleFuel_eq (data.drop pos) fuel pos (by rw [List.length_drop]; omega)]
  cases skipSingle (data.drop pos) pos with
  | none => rfl
  | some r =>
    obtain ⟨t, ln, q⟩ := r
    rfl

/-- Claim C10, witness: a 31-byte payload consisting entirely of wrapper
bytes decodes within 32 iterations. -/
theorem C10_decode_value_terminates_witness :
    decode_value_fuel 32 (List.replicate 31 0) 0 =
      some (decode_value (List.replicate 31 0) 0) :=
  C10_decode_value_terminates (List.replicate 31 0) 0 32 (by decide)

/-- Claim C3 (counterexample): a queued capture whose payload parses but
whose VALUE DECODER returns Absent is not discarded silently. The payload
below carries a valid vendor block (channel 5) whose value header 0xE0 is
an unknown tag, so decode_value answers (Absent, 0); processing it from a
fresh state still produces an output line, showing the value as the
unknown marker. -/
theorem C3_counterexample :
    decode_value [224, 0] 0 = .ok (none, 0) ∧
    parse_pybricks [6, 255, 151, 3, 5, 224, 0] = .ok (some (5, Formatted.unknown)) ∧
    (process_packet true ⟨[], 0, [], []⟩
        ⟨[17, 34, 51, 68, 85, 102], [6, 255, 151, 3, 5, 224, 0], -50, 0⟩).map
      (fun r => r.2.map (fun l => l.decoded)) = .ok (some Formatted.unknown) := by
  decide

/-- Claim C3 (amended): a queued primary capture whose payload FAILS TO
PARSE (the Record Walker finds no vendor block, or fewer than 5 bytes
follow the block start; a wrong identifier never reaches the parser since
the walker pre-verifies it) is discarded silently: no output line, the
dedup cache, hub counter, name cache and every existing tag, color, EMA
and address text are untouched (at most the missing name of an
already-registered hub is filled in). A capture whose value decoder
returns Absent is NOT discarded: it is formatted as the unknown marker
and emitted subject to dedup. -/
theorem C3_parse_failure_discarded (suppress : Bool) (st : ObserverState) (p : Packet)
    (hadv : p.adv_type ≠ 4)
    (hparse : parse_pybricks p.payload = .ok none) :
    ∃ st2, process_packet suppress st p = .ok (st2, none) ∧
      st2.registry.map (fun q => (q.1, q.2.tag, q.2.color, q.2.ema, q.2.addr_s)) =
        st.registry.map (fun q => (q.1, q.2.tag, q.2.color, q.2.ema, q.2.addr_s)) ∧
      st2.hub_counter = st.hub_counter ∧
      st2.name_cache = st.name_cache ∧
      st2.last_value = st.last_value := by
  obtain ⟨nm?, hname⟩ := find_local_name_go_ok p.payload (p.payload.length + 1) 0
  unfold process_packet
  rw [show find_local_name p.payload = .ok nm? from hname]
  dsimp only
  rw [if_neg hadv]
  by_cases hcond : (truthyName nm? && (dictGet st.registry p.addr).isSome) = true
  · rw [if_pos hcond, hparse]
    refine ⟨_, rfl, ?_⟩
    have h := update_hub_name_st_shape st p.addr (nm?.getD [])
    exact ⟨h.1, h.2.1, h.2.2.1, h.2.2.2⟩
  · rw [if_neg hcond, hparse]
    exact ⟨st, rfl, rfl, rfl, rfl, rfl⟩

/-- Claim C3 (amended), witness: the empty payload has no vendor block,
so the packet is discarded without touching the fresh state. -/
theorem C3_parse_failure_discarded_witness :
    ∃ st2, process_packet true ⟨[], 0, [], []⟩ ⟨[1], [], -1, 0⟩ = .ok (st2, none) ∧
      st2.registry.map (fun q => (q.1, q.2.tag, q.2.color, q.2.ema, q.2.addr_s)) =
        ([] : List (List Nat × HubEntry)).map
          (fun q => (q.1, q.2.tag, q.2.color, q.2.ema, q.2.addr_s)) ∧
      st2.hub_counter = 0 ∧
      st2.name_cache = [] ∧
      st2.last_value = [] :=
  C3_parse_failure_discarded true ⟨[], 0, [], []⟩ ⟨[1], [], -1, 0⟩ (by decide) (by decide)

/-- Claim C7: the ingestion queue of capacity 180 never exceeds its
capacity under any sequence of pushes and pops; appending to a full queue
drops the oldest element, never the new one; and pushing capacity + 1
items into the empty queue leaves exactly the newest capacity items in
FIFO order (the first item pushed is the one dropped). -/
theorem C7_queue_bounded_drop_oldest :
    QUEUE_MAXLEN = 180 ∧
    (∀ ops : List (QueueOp Nat),
      (ops.foldl BoundedQueue.applyOp (emptyQueue Nat QUEUE_MAXLEN)).items.length ≤
        QUEUE_MAXLEN) ∧
    (∀ (q : BoundedQueue Nat) (x : Nat), q.items.length = q.maxlen → 0 < q.maxlen →
      (q.append x).items = q.items.tail ++ [x]) ∧
    (∀ xs : List Nat, xs.length = QUEUE_MAXLEN + 1 →
      (xs.foldl BoundedQueue.append (emptyQueue Nat QUEUE_MAXLEN)).items = xs.tail ∧
      (xs.foldl BoundedQueue.append (emptyQueue Nat QUEUE_MAXLEN)).items.length =
        QUEUE_MAXLEN) := by
  refine ⟨rfl, ?_, ?_, ?_⟩
  · intro ops
    exact (BoundedQueue.foldl_applyOp_invariant ops (emptyQueue Nat QUEUE_MAXLEN)
      (by simp [emptyQueue])).2
  · intro q x hfull hpos
    rw [BoundedQueue.append_items,
      show q.items.length + 1 - q.maxlen = 1 from by omega]
    cases hq : q.items with
    | nil =>
      rw [hq] at hfull
      simp at hfull
      omega
    | cons y l2 => simp
  · intro xs hxs
    simp only [emptyQueue]
    have h := BoundedQueue.foldl_append_items xs ⟨QUEUE_MAXLEN, []⟩ (by simp)
    simp only [List.nil_append, List.length_nil, Nat.zero_add] at h
    rw [hxs, show QUEUE_MAXLEN + 1 - QUEUE_MAXLEN = 1 from by omega,
      List.drop_one] at h
    exact ⟨h, by rw [h, List.length_tail, hxs]; omega⟩

/-- Claim C7, witness: pushing 181 distinct items into the empty queue of
capacity 180 keeps exactly the newest 180. -/
theorem C7_queue_bounded_drop_oldest_witness :
    ((List.range 181).foldl BoundedQueue.append (emptyQueue Nat QUEUE_MAXLEN)).items =
      (List.range 181).tail :=
  (C7_queue_bounded_drop_oldest.2.2.2 (List.range 181) (by simp [QUEUE_MAXLEN])).1

/-- Claim C8: with dedup on, presenting the stored value again for the
same (address text, channel) suppresses the line and leaves the cache
untouched; presenting a different value stores it and emits; the history
stored under one channel never changes the decision for another channel
of the same address (the concatenated key addr + str(channel) cannot
collide across channels of one address); with dedup off every value is
emitted and the cache is not touched. -/
theorem C8_dedup_should_emit (cache : List (List Char × Formatted))
    (addr_s : List Char) (ch ch2 : Nat) (v v2 : Formatted) :
    (dictGet cache (dedupKey addr_s ch) = some v →
      shouldEmit true cache addr_s ch v = (false, cache)) ∧
    (dictGet cache (dedupKey addr_s ch) ≠ some v →
      shouldEmit true cache addr_s ch v = (true, dictSet cache (dedupKey addr_s ch) v) ∧
      dictGet (dictSet cache (dedupKey addr_s ch) v) (dedupKey addr_s ch) = some v) ∧
    (ch ≠ ch2 →
      (shouldEmit true (shouldEmit true cache addr_s ch v).2 addr_s ch2 v2).1 =
        (shouldEmit true cache addr_s ch2 v2).1) ∧
    shouldEmit false cache addr_s ch v = (true, cache) := by
  refine ⟨fun h => by simp [shouldEmit, h], fun h =>
    ⟨by simp [shouldEmit, h], dictGet_dictSet_self cache (dedupKey addr_s ch) v⟩,
    fun hne => ?_, rfl⟩
  have hkey : dedupKey addr_s ch2 ≠ dedupKey addr_s ch := fun hh =>
    hne (dedupKey_channel_injective addr_s ch2 ch hh).symm
  by_cases h1 : dictGet cache (dedupKey addr_s ch) = some v
  · simp [shouldEmit, h1]
  · simp only [shouldEmit]
    by_cases h2 : dictGet cache (dedupKey addr_s ch2) = some v2 <;>
      simp [h1, h2,
        dictGet_dictSet_ne cache (dedupKey addr_s ch) (dedupKey addr_s ch2) v hkey]

/-- Claim C8, witness: a fresh value is stored and emitted; a second
channel of the same address is decided as if the first had never been
seen; with dedup off the cache stays empty. -/
theorem C8_dedup_should_emit_witness :
    shouldEmit true [] ['A'] 1 (.int 42) =
      (true, dictSet [] (dedupKey ['A'] 1) (.int 42)) ∧
    (shouldEmit true (shouldEmit true [] ['A'] 1 (.int 42)).2 ['A'] 2 (.int 7)).1 =
      (shouldEmit true [] ['A'] 2 (.int 7)).1 ∧
    shouldEmit false [] ['A'] 1 (.int 42) = (true, []) :=
  ⟨((C8_dedup_should_emit [] ['A'] 1 2 (.int 42) (.int 7)).2.1 (by decide)).1,
    (C8_dedup_should_emit [] ['A'] 1 2 (.int 42) (.int 7)).2.2.1 (by decide),
    (C8_dedup_should_emit [] ['A'] 1 2 (.int 42) (.int 7)).2.2.2⟩

/-- Claim C9: over the supervisor step relation (event count, baseline,
watchdog clock), the preventive restart fires exactly when the events
accumulated since the last baseline reset reach the configured threshold,
and then resets the baseline and the watchdog clock, so it cannot fire
again without a fresh threshold crossing; the watchdog restart fires
exactly when the timeout has elapsed since the last check and zero
capture events arrived in that window. -/
theorem C9_supervisor_restarts (st : SupState) (arrivals now : Nat)
    (hinv : st.last_irq_count ≤ st.irq_count) (_hmono : st.last_irq_check ≤ now) :
    ((run_step st arrivals now).2.1 = true ↔
      (0 < PREVENTIVE_RESTART_EVENTS ∧
        PREVENTIVE_RESTART_EVENTS ≤ st.irq_count + arrivals - st.last_irq_count)) ∧
    ((run_step st arrivals now).2.1 = true →
      (run_step st arrivals now).1.last_irq_count = st.irq_count + arrivals ∧
      (run_step st arrivals now).1.last_irq_check = now) ∧
    ((run_step st arrivals now).2.1 = true →
      (run_step (run_step st arrivals now).1 0 now).2.1 = false) ∧
    ((run_step st arrivals now).2.2 = true ↔
      ((run_step st arrivals now).2.1 = false ∧
        WATCHDOG_SEC * 1000 ≤ now - st.last_irq_check ∧
        arrivals = 0 ∧ st.irq_count = st.last_irq_count)) := by
  unfold run_step supervisor_step PREVENTIVE_RESTART_EVENTS WATCHDOG_SEC
  dsimp only
  by_cases hf : 6000 ≤ st.irq_count + arrivals - st.last_irq_count
  · have hnw : ¬ 10 * 1000 ≤ now - now := by omega
    simp [hf, hnw]
  · by_cases hw : 10 * 1000 ≤ now - st.last_irq_check
    · simp [hf, hw]
      omega
    · simp [hf, hw]

/-- Claim C9, witness: 6000 events since the baseline fire the preventive
restart at once; 20000 ms of silence fire the watchdog. -/
theorem C9_supervisor_restarts_witness :
    (run_step ⟨6000, 0, 0⟩ 0 0).2.1 = true ∧
    (run_step ⟨0, 0, 0⟩ 0 20000).2.2 = true :=
  ⟨(C9_supervisor_restarts ⟨6000, 0, 0⟩ 0 0 (by decide) (by decide)).1.mpr
      (by decide),
    (C9_supervisor_restarts ⟨0, 0, 0⟩ 0 20000 (by decide) (by decide)).2.2.2.mpr
      (by refine ⟨by decide, by decide, rfl, rfl⟩)⟩

end PybricksScan
